import Mathlib
set_option maxRecDepth 8000

/-
Verification development for the `mhv` hex-viewer.

The unit parser and the command wiring are embedded from `src/cli.rs`.
Rust machine integers (`usize`, 64-bit target) are modelled as `Nat`
with an explicit bound `USIZE_MAX = 2^64 - 1`; the unchecked `value *= m`
of the source is modelled as wrapping multiplication modulo `2^64`
(release-profile semantics).  Strings are modelled as `List Char`.
-/


/-- Error type of Rust's `str::parse::<usize>` (`std::num::ParseIntError`),
restricted to the kinds reachable for an unsigned type. -/
inductive ParseIntError where
  | empty
  | invalidDigit
  | posOverflow
deriving DecidableEq

deriving instance DecidableEq for Except

/-- `usize::MAX` on the 64-bit target. -/
def USIZE_MAX : Nat := 18446744073709551615

/-- `2^64`, the wrap-around modulus of `usize` arithmetic. -/
def TWO64 : Nat := 18446744073709551616

/-- Rust `char::to_digit(10)`: the value of a decimal digit, `none` otherwise. -/
def digitVal (c : Char) : Option Nat :=
  if c.isDigit then some (c.toNat - 48) else none

/-- The digit-consuming loop of Rust's `from_str_radix` for `usize`:
accumulate `acc * 10 + d`, failing with `PosOverflow` as soon as the
accumulated value would exceed `usize::MAX`, and with `InvalidDigit`
on a non-digit character. -/
def parseDigits (acc : Nat) : List Char → Except ParseIntError Nat
  | [] => .ok acc
  | c :: cs =>
    match digitVal c with
    | none => .error .invalidDigit
    | some d =>
      if acc * 10 + d ≤ USIZE_MAX then parseDigits (acc * 10 + d) cs
      else .error .posOverflow

/-- Rust `str::parse::<usize>`: empty input is `Empty`; a single leading `+`
is allowed (but must be followed by at least one digit); a leading `-` is
`InvalidDigit` for an unsigned type; otherwise the digit loop runs on the
whole text. -/
def parseUsize : List Char → Except ParseIntError Nat
  | [] => .error .empty
  | c :: rest =>
    if c = '+' then
      if rest = [] then .error .invalidDigit else parseDigits 0 rest
    else if c = '-' then .error .invalidDigit
    else parseDigits 0 (c :: rest)

/-- Helper for `stripSuffix`: both lists reversed, remove the (reversed)
suffix from the front. -/
def dropSufRev : List Char → List Char → Option (List Char)
  | rs, [] => some rs
  | [], _ :: _ => none
  | c :: rs, d :: ds => if c = d then dropSufRev rs ds else none

/-- Rust `str::strip_suffix`: `some` of the text before the suffix when the
string ends with it, `none` otherwise. -/
def stripSuffix (s suf : List Char) : Option (List Char) :=
  (dropSufRev s.reverse suf.reverse).map List.reverse

/-- The source's `value *= m` on `usize`: wrapping multiplication. -/
def mulWrap (m v : Nat) : Nat := v * m % TWO64

/-- `parse_unit` from `src/cli.rs`: try to strip the suffixes `kb`, `mb`,
`K`, `M` in that order; on the first hit parse the remaining prefix as
`usize` and multiply by 1000, 1000000, 1024, 1048576 respectively;
with no suffix, parse the whole input as `usize`. -/
def parse_unit (input : List Char) : Except ParseIntError Nat :=
  match stripSuffix input ['k', 'b'] with
  | some p => Except.map (mulWrap 1000) (parseUsize p)
  | none =>
    match stripSuffix input ['m', 'b'] with
    | some p => Except.map (mulWrap 1000000) (parseUsize p)
    | none =>
      match stripSuffix input ['K'] with
      | some p => Except.map (mulWrap 1024) (parseUsize p)
      | none =>
        match stripSuffix input ['M'] with
        | some p => Except.map (mulWrap 1048576) (parseUsize p)
        | none => parseUsize input

/-- The text `parse_unit` hands to the numeric parser: the input after
removal of the first matching suffix, or the whole input if none matched.
Mirrors the branch order of `parse_unit`. -/
def remaining (input : List Char) : List Char :=
  match stripSuffix input ['k', 'b'] with
  | some p => p
  | none =>
    match stripSuffix input ['m', 'b'] with
    | some p => p
    | none =>
      match stripSuffix input ['K'] with
      | some p => p
      | none =>
        match stripSuffix input ['M'] with
        | some p => p
        | none => input

/-- `true` exactly on the error case. -/
def exceptIsErr : Except ParseIntError Nat → Bool
  | .error _ => true
  | .ok _ => false

/-- The numeric value denoted by a digit string, accumulated from `acc`. -/
def natFrom (acc : Nat) : List Char → Nat
  | [] => acc
  | c :: cs => natFrom (acc * 10 + (c.toNat - 48)) cs

/-- The spec's words for the text accepted by the numeric parse, before
amendment: a (nonempty) non-negative base-10 integer, digits only. -/
def plainNonNegInt (s : List Char) : Bool :=
  !s.isEmpty && s.all Char.isDigit

/-- The input with one leading `+` removed, as Rust's integer parse does. -/
def signStripped (s : List Char) : List Char :=
  if s.head? = some '+' then s.tail else s

/-- The strings actually accepted by `str::parse::<usize>`: an optional
leading `+`, then a nonempty run of decimal digits whose value is at most
`usize::MAX`. -/
def validUsizeStr (s : List Char) : Bool :=
  !(signStripped s).isEmpty && (signStripped s).all Char.isDigit &&
    Nat.ble (natFrom 0 (signStripped s)) USIZE_MAX

/-- Modelled from the spec: `fs::read_data` lives in `src/fs.rs`, which is
not under `src/`.  Per spec §4.1 and the `--length` doc comment in
`src/cli.rs` ("None for full read", which `execute` encodes by parsing the
default text `"0"`), a length of `0` means "read all remaining bytes from
`offset` to EOF"; otherwise at most `length` bytes are read starting at
`offset`, clipped to the file size.  The file is modelled as its byte list. -/
def read_data (skip length : Nat) (file : List Nat) : List Nat :=
  if length = 0 then file.drop skip else (file.drop skip).take length

/-- The data-acquisition portion of `execute` from `src/cli.rs`,
parameterised by the reader so that non-invocation of `read_data` on parse
failure is expressible: `length` is parsed first (from the `--length` text,
defaulting to `"0"` when the option is absent), then `skip`; the `?`
operator is the explicit `match` on the error case. -/
def executeReadW (reader : Nat → Nat → List Nat → List Nat)
    (skip_arg : List Char) (length_arg : Option (List Char)) (file : List Nat) :
    Except ParseIntError (List Nat) :=
  match parse_unit (length_arg.getD ['0']) with
  | .error e => .error e
  | .ok length =>
    match parse_unit skip_arg with
    | .error e => .error e
    | .ok skip => .ok (reader skip length file)

/-- `execute`'s read path with the actual (spec-modelled) `read_data`. -/
def executeRead : List Char → Option (List Char) → List Nat → Except ParseIntError (List Nat) :=
  executeReadW read_data

/- ## Dump renderer, modelled from the spec

`view::display_data` lives in `src/view.rs`, which is not under `src/`;
the renderer below is modelled from spec §4.3 and §4.9 (the squeeze state
machine), with the §8 end-to-end examples fixing the ambiguous cases:
a final full-length chunk participates in squeezing, and duplicate
detection compares the 16-byte chunks themselves (identical chunks render
to identical line bodies).  Lines are `List Char`. -/

/-- Modelled from the spec: split the byte window into consecutive 16-byte
chunks, the final chunk possibly shorter (spec §4.3).  `cur` is the current
chunk accumulated in reverse, `slots` the remaining capacity. -/
def chunksAux : List Nat → Nat → List Nat → List (List Nat)
  | cur, _, [] => if cur = [] then [] else [cur.reverse]
  | cur, 0, b :: bs => cur.reverse :: chunksAux [b] 15 bs
  | cur, slots + 1, b :: bs => chunksAux (b :: cur) slots bs

/-- The 16-byte chunking of the data window. -/
def chunks16 (data : List Nat) : List (List Nat) :=
  chunksAux [] 16 data

/-- One lowercase hex digit. -/
def hexDigit (n : Nat) : Char :=
  if n < 10 then Char.ofNat (48 + n) else Char.ofNat (87 + n)

/-- Modelled from the spec: the 8-hex-digit zero-padded address label. -/
def hexAddr (addr : Nat) : List Char :=
  [hexDigit (addr / 268435456 % 16), hexDigit (addr / 16777216 % 16),
   hexDigit (addr / 1048576 % 16), hexDigit (addr / 65536 % 16),
   hexDigit (addr / 4096 % 16), hexDigit (addr / 256 % 16),
   hexDigit (addr / 16 % 16), hexDigit (addr % 16)]

/-- One byte cell: two hex digits and a space, or three blanks for a
missing byte of a short chunk (spec §4.3 item 2). -/
def cell : Option Nat → List Char
  | some b => [hexDigit (b / 16 % 16), hexDigit (b % 16), ' ']
  | none => [' ', ' ', ' ']

/-- Concatenated byte cells. -/
def cells (bs : List (Option Nat)) : List Char :=
  bs.foldr (fun b acc => cell b ++ acc) []

/-- The chunk padded with `none` to the full 16 positions. -/
def padded16 (chunk : List Nat) : List (Option Nat) :=
  chunk.map some ++ List.replicate (16 - chunk.length) none

/-- The printable-character column cell: the byte's ASCII character when
printable, `.` otherwise (spec §4.3 item 3). -/
def asciiCell (b : Nat) : Char :=
  if 32 ≤ b ∧ b ≤ 126 then Char.ofNat b else '.'

/-- Modelled from the spec: one fully rendered dump line — address label,
two groups of eight byte cells, and the printable column. -/
def renderLine (addr : Nat) (chunk : List Nat) : List Char :=
  hexAddr addr ++ ' ' :: ' ' :: cells ((padded16 chunk).take 8)
    ++ ' ' :: cells ((padded16 chunk).drop 8) ++ ' ' :: chunk.map asciiCell

/-- The squeeze state (spec §3 SqueezeState): the previously emitted full
line's chunk, if any, and whether the `*` marker was already emitted for
the current run of duplicates. -/
structure SqueezeState where
  prev : Option (List Nat)
  marked : Bool

/-- The squeeze transition (spec §4.3): a full-length chunk equal to the
previous line keeps `prev` and sets `marked`; anything else becomes the
new `prev` with `marked` cleared. -/
def nextState (st : SqueezeState) (c : List Nat) : SqueezeState :=
  if c.length = 16 ∧ st.prev = some c then
    (if st.marked then st else ⟨st.prev, true⟩)
  else ⟨some c, false⟩

/-- The lines emitted for one chunk (spec §4.3): with `show_all` the full
line always; otherwise a duplicate full-length chunk emits the `*` marker
once and then nothing, and any other chunk emits its full line. -/
def stepOut (show_all : Bool) (st : SqueezeState) (addr : Nat) (c : List Nat) :
    List (List Char) :=
  if show_all then [renderLine addr c]
  else if c.length = 16 ∧ st.prev = some c then
    (if st.marked then [] else [['*']])
  else [renderLine addr c]

/-- Modelled from the spec: render a chunk list from a squeeze state,
addresses advancing by 16 per chunk. -/
def renderChunks (show_all : Bool) : SqueezeState → Nat → List (List Nat) → List (List Char)
  | _, _, [] => []
  | st, addr, c :: cs =>
    stepOut show_all st addr c ++ renderChunks show_all (nextState st c) (addr + 16) cs

/-- The squeeze state after consuming a chunk list. -/
def stAfter (st : SqueezeState) : List (List Nat) → SqueezeState
  | [] => st
  | c :: cs => stAfter (nextState st c) cs

/-- Modelled from the spec: the renderer's contract
`render(offset, show_all, data, sink)` (spec §4.3), with the sink's line
sequence as the result. -/
def render (offset : Nat) (show_all : Bool) (data : List Nat) : List (List Char) :=
  renderChunks show_all ⟨none, false⟩ offset (chunks16 data)

theorem ble_eq_false_of_not (m n : Nat) (h : ¬ m ≤ n) : Nat.ble m n = false := by
  cases hb : Nat.ble m n with
  | false => rfl
  | true => exact absurd (Nat.ble_eq.mp hb) h

theorem le_natFrom : ∀ (cs : List Char) (acc : Nat), acc ≤ natFrom acc cs := by
  intro cs
  induction cs with
  | nil => intro acc; exact Nat.le_refl acc
  | cons c cs ih =>
    intro acc
    calc acc ≤ acc * 10 + (c.toNat - 48) := by omega
    _ ≤ natFrom (acc * 10 + (c.toNat - 48)) cs := ih _
    _ = natFrom acc (c :: cs) := rfl

theorem parseDigits_cons_digit (acc : Nat) (c : Char) (cs : List Char) (hc : c.isDigit = true) :
    parseDigits acc (c :: cs) =
      if acc * 10 + (c.toNat - 48) ≤ USIZE_MAX then parseDigits (acc * 10 + (c.toNat - 48)) cs
      else .error .posOverflow := by
  have hdv : digitVal c = some (c.toNat - 48) := by simp [digitVal, hc]
  simp only [parseDigits, hdv]

theorem parseDigits_cons_nondigit (acc : Nat) (c : Char) (cs : List Char)
    (hc : c.isDigit = false) : parseDigits acc (c :: cs) = .error .invalidDigit := by
  have hdv : digitVal c = none := by simp [digitVal, hc]
  simp only [parseDigits, hdv]

theorem parseDigits_ok : ∀ (cs : List Char) (acc : Nat),
    (∀ c ∈ cs, c.isDigit = true) → natFrom acc cs ≤ USIZE_MAX →
    parseDigits acc cs = .ok (natFrom acc cs) := by
  intro cs
  induction cs with
  | nil => intro acc _ _; rfl
  | cons c cs ih =>
    intro acc hall hle
    have hc : c.isDigit = true := hall c (List.mem_cons_self c cs)
    have hstep : acc * 10 + (c.toNat - 48) ≤ USIZE_MAX := by
      have h1 : acc * 10 + (c.toNat - 48) ≤ natFrom (acc * 10 + (c.toNat - 48)) cs :=
        le_natFrom cs _
      have h2 : natFrom acc (c :: cs) = natFrom (acc * 10 + (c.toNat - 48)) cs := rfl
      omega
    rw [parseDigits_cons_digit acc c cs hc, if_pos hstep]
    exact ih _ (fun d hd => hall d (List.mem_cons_of_mem c hd)) hle

theorem parseDigits_isErr : ∀ (cs : List Char) (acc : Nat), acc ≤ USIZE_MAX →
    exceptIsErr (parseDigits acc cs) =
      !(cs.all Char.isDigit && Nat.ble (natFrom acc cs) USIZE_MAX) := by
  intro cs
  induction cs with
  | nil =>
    intro acc hle
    have hble : Nat.ble acc USIZE_MAX = true := Nat.ble_eq.mpr hle
    show exceptIsErr (.ok acc) = !(true && Nat.ble acc USIZE_MAX)
    rw [hble]
    rfl
  | cons c cs ih =>
    intro acc hle
    by_cases hc : c.isDigit = true
    · rw [parseDigits_cons_digit acc c cs hc]
      by_cases hstep : acc * 10 + (c.toNat - 48) ≤ USIZE_MAX
      · rw [if_pos hstep, ih _ hstep]
        show _ = !((c.isDigit && cs.all Char.isDigit) &&
          Nat.ble (natFrom (acc * 10 + (c.toNat - 48)) cs) USIZE_MAX)
        rw [hc, Bool.true_and]
      · rw [if_neg hstep]
        have hble : Nat.ble (natFrom acc (c :: cs)) USIZE_MAX = false := by
          have h1 : acc * 10 + (c.toNat - 48) ≤ natFrom (acc * 10 + (c.toNat - 48)) cs :=
            le_natFrom cs _
          have h2 : natFrom acc (c :: cs) = natFrom (acc * 10 + (c.toNat - 48)) cs := rfl
          exact ble_eq_false_of_not _ _ (by omega)
        show exceptIsErr (.error .posOverflow) =
          !((c.isDigit && cs.all Char.isDigit) && Nat.ble (natFrom acc (c :: cs)) USIZE_MAX)
        rw [hble, Bool.and_false]
        rfl
    · have hcf : c.isDigit = false := by simpa using hc
      rw [parseDigits_cons_nondigit acc c cs hcf]
      show exceptIsErr (.error .invalidDigit) =
        !((c.isDigit && cs.all Char.isDigit) && Nat.ble (natFrom acc (c :: cs)) USIZE_MAX)
      rw [hcf, Bool.false_and, Bool.false_and]
      rfl

theorem isDigit_ne (c : Char) (h : c.isDigit = true) :
    c ≠ '+' ∧ c ≠ '-' ∧ c ≠ 'b' ∧ c ≠ 'K' ∧ c ≠ 'M' := by
  refine ⟨?_, ?_, ?_, ?_, ?_⟩ <;> intro he <;> subst he <;> exact absurd h (by decide)

theorem signStripped_plus (rest : List Char) : signStripped ('+' :: rest) = rest := by
  simp [signStripped]

theorem signStripped_not_plus (c : Char) (rest : List Char) (h : c ≠ '+') :
    signStripped (c :: rest) = c :: rest := by
  simp [signStripped, h]

theorem parseUsize_not_sign (c : Char) (rest : List Char) (h1 : c ≠ '+') (h2 : c ≠ '-') :
    parseUsize (c :: rest) = parseDigits 0 (c :: rest) := by
  simp only [parseUsize, if_neg h1, if_neg h2]

theorem parseUsize_digits (p : List Char) (hne : p ≠ [])
    (hall : ∀ c ∈ p, c.isDigit = true) (hle : natFrom 0 p ≤ USIZE_MAX) :
    parseUsize p = .ok (natFrom 0 p) := by
  match p with
  | [] => exact absurd rfl hne
  | c :: cs =>
    have hc : c.isDigit = true := hall c (List.mem_cons_self c cs)
    obtain ⟨hplus, hminus, -, -, -⟩ := isDigit_ne c hc
    rw [parseUsize_not_sign c cs hplus hminus]
    exact parseDigits_ok (c :: cs) 0 hall hle

theorem parseUsize_isErr : ∀ s : List Char, exceptIsErr (parseUsize s) = !(validUsizeStr s) := by
  intro s
  cases s with
  | nil => decide
  | cons c rest =>
    by_cases hplus : c = '+'
    · subst hplus
      cases rest with
      | nil => decide
      | cons r rs =>
        show exceptIsErr (parseDigits 0 (r :: rs)) = !(validUsizeStr ('+' :: r :: rs))
        rw [parseDigits_isErr (r :: rs) 0 (by omega)]
        unfold validUsizeStr
        rw [signStripped_plus]
        show _ = !((true && (r :: rs).all Char.isDigit) && Nat.ble (natFrom 0 (r :: rs)) USIZE_MAX)
        rw [Bool.true_and]
    · by_cases hminus : c = '-'
      · subst hminus
        show exceptIsErr (.error .invalidDigit) = !(validUsizeStr ('-' :: rest))
        unfold validUsizeStr
        rw [signStripped_not_plus '-' rest (by decide)]
        show true = !((!(false) && (('-').isDigit && rest.all Char.isDigit)) && _)
        rw [show ('-').isDigit = false from by decide]
        rfl
      · rw [parseUsize_not_sign c rest hplus hminus,
          parseDigits_isErr (c :: rest) 0 (by omega)]
        unfold validUsizeStr
        rw [signStripped_not_plus c rest hplus]
        show _ = !((!(false) && (c :: rest).all Char.isDigit) && _)
        rw [Bool.not_false, Bool.true_and]

theorem exceptIsErr_map (f : Nat → Nat) (e : Except ParseIntError Nat) :
    exceptIsErr (Except.map f e) = exceptIsErr e := by
  cases e <;> rfl

theorem dropSufRev_append : ∀ (ds rs : List Char), dropSufRev (ds ++ rs) ds = some rs := by
  intro ds
  induction ds with
  | nil => intro rs; cases rs <;> rfl
  | cons d ds ih =>
    intro rs
    show (if d = d then dropSufRev (ds ++ rs) ds else none) = some rs
    rw [if_pos rfl]
    exact ih rs

theorem stripSuffix_append (p suf : List Char) : stripSuffix (p ++ suf) suf = some p := by
  unfold stripSuffix
  rw [List.reverse_append, dropSufRev_append]
  simp

theorem dropSufRev_cons_ne (c d : Char) (cr dr : List Char) (h : c ≠ d) :
    dropSufRev (c :: cr) (d :: dr) = none := by
  show (if c = d then dropSufRev cr dr else none) = none
  rw [if_neg h]

theorem dropSufRev_cons_eq (c : Char) (cr dr : List Char) :
    dropSufRev (c :: cr) (c :: dr) = dropSufRev cr dr := by
  show (if c = c then dropSufRev cr dr else none) = dropSufRev cr dr
  rw [if_pos rfl]

/-- A string whose last character differs from a one- or two-character
suffix's last character does not end with that suffix. -/
theorem stripSuffix_ne_last (s suf : List Char) (c d : Char) (cr dr : List Char)
    (hs : s.reverse = c :: cr) (hsuf : suf.reverse = d :: dr) (hne : c ≠ d) :
    stripSuffix s suf = none := by
  unfold stripSuffix
  rw [hs, hsuf, dropSufRev_cons_ne c d cr dr hne]
  rfl

theorem stripSuffix_append_mb_kb (p : List Char) :
    stripSuffix (p ++ ['m', 'b']) ['k', 'b'] = none := by
  unfold stripSuffix
  rw [List.reverse_append]
  show (dropSufRev ('b' :: 'm' :: p.reverse) ('b' :: 'k' :: [])).map List.reverse = none
  rw [dropSufRev_cons_eq, dropSufRev_cons_ne 'm' 'k' p.reverse [] (by decide)]
  rfl

theorem parse_unit_kb (input p : List Char) (h : stripSuffix input ['k', 'b'] = some p) :
    parse_unit input = Except.map (mulWrap 1000) (parseUsize p) := by
  simp only [parse_unit, h]

theorem parse_unit_mb (input p : List Char)
    (h1 : stripSuffix input ['k', 'b'] = none)
    (h2 : stripSuffix input ['m', 'b'] = some p) :
    parse_unit input = Except.map (mulWrap 1000000) (parseUsize p) := by
  simp only [parse_unit, h1, h2]

theorem parse_unit_K (input p : List Char)
    (h1 : stripSuffix input ['k', 'b'] = none)
    (h2 : stripSuffix input ['m', 'b'] = none)
    (h3 : stripSuffix input ['K'] = some p) :
    parse_unit input = Except.map (mulWrap 1024) (parseUsize p) := by
  simp only [parse_unit, h1, h2, h3]

theorem parse_unit_M (input p : List Char)
    (h1 : stripSuffix input ['k', 'b'] = none)
    (h2 : stripSuffix input ['m', 'b'] = none)
    (h3 : stripSuffix input ['K'] = none)
    (h4 : stripSuffix input ['M'] = some p) :
    parse_unit input = Except.map (mulWrap 1048576) (parseUsize p) := by
  simp only [parse_unit, h1, h2, h3, h4]

theorem parse_unit_noSuffix (input : List Char)
    (h1 : stripSuffix input ['k', 'b'] = none)
    (h2 : stripSuffix input ['m', 'b'] = none)
    (h3 : stripSuffix input ['K'] = none)
    (h4 : stripSuffix input ['M'] = none) :
    parse_unit input = parseUsize input := by
  simp only [parse_unit, h1, h2, h3, h4]

theorem parse_unit_isErr_remaining (input : List Char) :
    exceptIsErr (parse_unit input) = exceptIsErr (parseUsize (remaining input)) := by
  cases h1 : stripSuffix input ['k', 'b'] with
  | some p => rw [parse_unit_kb input p h1, exceptIsErr_map]; simp only [remaining, h1]
  | none =>
    cases h2 : stripSuffix input ['m', 'b'] with
    | some p => rw [parse_unit_mb input p h1 h2, exceptIsErr_map]; simp only [remaining, h1, h2]
    | none =>
      cases h3 : stripSuffix input ['K'] with
      | some p =>
        rw [parse_unit_K input p h1 h2 h3, exceptIsErr_map]
        simp only [remaining, h1, h2, h3]
      | none =>
        cases h4 : stripSuffix input ['M'] with
        | some p =>
          rw [parse_unit_M input p h1 h2 h3 h4, exceptIsErr_map]
          simp only [remaining, h1, h2, h3, h4]
        | none =>
          rw [parse_unit_noSuffix input h1 h2 h3 h4]
          simp only [remaining, h1, h2, h3, h4]

theorem mulWrap_eq (m v : Nat) (h : v * m ≤ USIZE_MAX) : mulWrap m v = v * m := by
  unfold mulWrap
  apply Nat.mod_eq_of_lt
  have hlt : USIZE_MAX < TWO64 := by decide
  omega

/-- Claim C1: parse_unit returns exactly the spec's example values:
parse_unit "3kb" = Ok 3000, parse_unit "1mb" = Ok 1000000,
parse_unit "1K" = Ok 1024, parse_unit "1M" = Ok 1048576,
parse_unit "2" = Ok 2. -/
theorem parse_unit_spec_examples :
    parse_unit ['3', 'k', 'b'] = .ok 3000 ∧ parse_unit ['1', 'm', 'b'] = .ok 1000000 ∧
    parse_unit ['1', 'K'] = .ok 1024 ∧ parse_unit ['1', 'M'] = .ok 1048576 ∧
    parse_unit ['2'] = .ok 2 := by
  decide

/-- Claim C7: parse_unit is a pure, deterministic function with no side
effects: two evaluations on the same input yield equal results.  In this
shallow embedding parse_unit is a total function, so purity is
definitional. -/
theorem parse_unit_deterministic : ∀ input : List Char, parse_unit input = parse_unit input :=
  fun _ => rfl

/-- Claim C9: parse_unit accepts an optional leading plus sign in the
numeric prefix, beyond the spec's "non-negative base-10 integer":
parse_unit "+2" = Ok 2 and parse_unit "+1K" = Ok 1024. -/
theorem parse_unit_plus_sign :
    parse_unit ['+', '2'] = .ok 2 ∧ parse_unit ['+', '1', 'K'] = .ok 1024 := by
  decide

/-- Claim C10: the suffix multiplication is unchecked usize arithmetic:
the 20-digit prefix 18446744073709551615 parses as a usize, its
mathematical product with 1024 exceeds usize::MAX, and on input
"18446744073709551615K" parse_unit returns the product wrapped modulo
2^64, not the mathematical product. -/
theorem parse_unit_mul_overflow_wraps :
    parseUsize ['1', '8', '4', '4', '6', '7', '4', '4', '0', '7', '3', '7', '0', '9', '5', '5', '1', '6', '1', '5'] =
      .ok 18446744073709551615 ∧
    USIZE_MAX < 18446744073709551615 * 1024 ∧
    parse_unit (['1', '8', '4', '4', '6', '7', '4', '4', '0', '7', '3', '7', '0', '9', '5', '5', '1', '6', '1', '5'] ++ ['K']) =
      .ok (18446744073709551615 * 1024 % 18446744073709551616) ∧
    18446744073709551615 * 1024 % 18446744073709551616 ≠ 18446744073709551615 * 1024 := by
  decide

/-- Claim C3: suffix matching is case-sensitive and checked in the fixed
order kb, mb, K, M, then plain integer; the first matching branch decides
the result, so a string matching an earlier suffix is never handled by a
later branch; wrong-case variants ("1KB", "1MB", "1k", "1m") are not
recognised as suffixed and fall through to the (failing) integer parse. -/
theorem parse_unit_branch_order :
    (∀ input p, stripSuffix input ['k', 'b'] = some p →
      parse_unit input = Except.map (mulWrap 1000) (parseUsize p)) ∧
    (∀ input p, stripSuffix input ['k', 'b'] = none → stripSuffix input ['m', 'b'] = some p →
      parse_unit input = Except.map (mulWrap 1000000) (parseUsize p)) ∧
    (∀ input p, stripSuffix input ['k', 'b'] = none → stripSuffix input ['m', 'b'] = none →
      stripSuffix input ['K'] = some p →
      parse_unit input = Except.map (mulWrap 1024) (parseUsize p)) ∧
    (∀ input p, stripSuffix input ['k', 'b'] = none → stripSuffix input ['m', 'b'] = none →
      stripSuffix input ['K'] = none → stripSuffix input ['M'] = some p →
      parse_unit input = Except.map (mulWrap 1048576) (parseUsize p)) ∧
    (∀ input, stripSuffix input ['k', 'b'] = none → stripSuffix input ['m', 'b'] = none →
      stripSuffix input ['K'] = none → stripSuffix input ['M'] = none →
      parse_unit input = parseUsize input) ∧
    exceptIsErr (parse_unit ['1', 'K', 'B']) = true ∧
    exceptIsErr (parse_unit ['1', 'M', 'B']) = true ∧
    exceptIsErr (parse_unit ['1', 'k']) = true ∧
    exceptIsErr (parse_unit ['1', 'm']) = true :=
  ⟨parse_unit_kb, parse_unit_mb, parse_unit_K, parse_unit_M, parse_unit_noSuffix,
    by decide, by decide, by decide, by decide⟩

theorem parse_unit_branch_order_w :
    parse_unit ['5', 'k', 'b'] = Except.map (mulWrap 1000) (parseUsize ['5']) :=
  parse_unit_branch_order.1 ['5', 'k', 'b'] ['5'] (by decide)

/-- Claim C4, counterexample to the claim as stated: "+2" is not a plain
non-negative base-10 integer (after no suffix is removed) yet parse_unit
does not error on it; and "18446744073709551616" is a plain non-negative
base-10 integer yet parse_unit errors on it (usize overflow), so "errors
exactly when the remainder is not a valid non-negative base-10 integer"
fails in both directions. -/
theorem parse_unit_error_iff_cex :
    (plainNonNegInt (remaining ['+', '2']) = false ∧
      exceptIsErr (parse_unit ['+', '2']) = false) ∧
    (plainNonNegInt (remaining ['1', '8', '4', '4', '6', '7', '4', '4', '0', '7', '3', '7', '0', '9', '5', '5', '1', '6', '1', '6']) = true ∧
      exceptIsErr (parse_unit ['1', '8', '4', '4', '6', '7', '4', '4', '0', '7', '3', '7', '0', '9', '5', '5', '1', '6', '1', '6']) = true) := by
  decide

/-- Claim C4 (amended): parse_unit returns an error exactly when the
remaining text (after removal of a recognised suffix, or the whole input
if none matched) is not accepted by the Rust usize parse: an optional
leading plus sign followed by one or more decimal digits whose value is
at most usize::MAX; in particular it errors on the empty string, on text
with leading or trailing whitespace, and on a negative sign. -/
theorem parse_unit_error_iff :
    (∀ input : List Char,
      exceptIsErr (parse_unit input) = !(validUsizeStr (remaining input))) ∧
    exceptIsErr (parse_unit []) = true ∧
    exceptIsErr (parse_unit [' ', '2']) = true ∧
    exceptIsErr (parse_unit ['2', ' ']) = true ∧
    exceptIsErr (parse_unit ['-', '2']) = true := by
  refine ⟨?_, by decide, by decide, by decide, by decide⟩
  intro input
  rw [parse_unit_isErr_remaining, parseUsize_isErr]

/-- Claim C2, counterexample to the claim as stated: the prefix of
"18446744073709551615K" is a valid non-negative base-10 integer n (all
digits, nonempty), yet parse_unit does not return Ok(n * 1024): the
product overflows usize and is wrapped. -/
theorem parse_unit_suffix_claim_cex :
    ((['1', '8', '4', '4', '6', '7', '4', '4', '0', '7', '3', '7', '0', '9', '5', '5', '1', '6', '1', '5'] : List Char) ≠ [] ∧
      (∀ c ∈ (['1', '8', '4', '4', '6', '7', '4', '4', '0', '7', '3', '7', '0', '9', '5', '5', '1', '6', '1', '5'] : List Char), c.isDigit = true)) ∧
    parse_unit (['1', '8', '4', '4', '6', '7', '4', '4', '0', '7', '3', '7', '0', '9', '5', '5', '1', '6', '1', '5'] ++ ['K']) ≠
      .ok (natFrom 0 ['1', '8', '4', '4', '6', '7', '4', '4', '0', '7', '3', '7', '0', '9', '5', '5', '1', '6', '1', '5'] * 1024) := by
  decide

/-- Claim C2 (amended): for every digit string p and recognised suffix
with multiplier m, provided the mathematical product fits in usize,
parse_unit on p followed by the suffix returns Ok(n * m) where n is the
value of p; and a plain digit string whose value fits in usize parses to
its literal value (a digit string never ends in a suffix character, so no
suffix branch intercepts it). -/
theorem parse_unit_suffix_multiplies :
    ∀ p : List Char, p ≠ [] → (∀ c ∈ p, c.isDigit = true) →
      (natFrom 0 p * 1000 ≤ USIZE_MAX →
        parse_unit (p ++ ['k', 'b']) = .ok (natFrom 0 p * 1000)) ∧
      (natFrom 0 p * 1000000 ≤ USIZE_MAX →
        parse_unit (p ++ ['m', 'b']) = .ok (natFrom 0 p * 1000000)) ∧
      (natFrom 0 p * 1024 ≤ USIZE_MAX →
        parse_unit (p ++ ['K']) = .ok (natFrom 0 p * 1024)) ∧
      (natFrom 0 p * 1048576 ≤ USIZE_MAX →
        parse_unit (p ++ ['M']) = .ok (natFrom 0 p * 1048576)) ∧
      (natFrom 0 p ≤ USIZE_MAX → parse_unit p = .ok (natFrom 0 p)) := by
  intro p hne hall
  have hle_of_mul : ∀ m : Nat, 1 ≤ m → natFrom 0 p * m ≤ USIZE_MAX → natFrom 0 p ≤ USIZE_MAX := by
    intro m hm h
    have : natFrom 0 p * 1 ≤ natFrom 0 p * m := Nat.mul_le_mul_left _ hm
    omega
  have hrevK : (p ++ ['K']).reverse = 'K' :: p.reverse := by
    rw [List.reverse_append]; rfl
  have hrevM : (p ++ ['M']).reverse = 'M' :: p.reverse := by
    rw [List.reverse_append]; rfl
  have hok : ∀ m : Nat, 1 ≤ m → natFrom 0 p * m ≤ USIZE_MAX →
      Except.map (mulWrap m) (parseUsize p) = .ok (natFrom 0 p * m) := by
    intro m hm h
    rw [parseUsize_digits p hne hall (hle_of_mul m hm h)]
    show Except.ok (mulWrap m (natFrom 0 p)) = _
    rw [mulWrap_eq m _ h]
  refine ⟨?_, ?_, ?_, ?_, ?_⟩
  · intro h
    rw [parse_unit_kb _ p (stripSuffix_append p ['k', 'b'])]
    exact hok 1000 (by omega) h
  · intro h
    rw [parse_unit_mb _ p (stripSuffix_append_mb_kb p) (stripSuffix_append p ['m', 'b'])]
    exact hok 1000000 (by omega) h
  · intro h
    rw [parse_unit_K _ p
      (stripSuffix_ne_last _ _ 'K' 'b' p.reverse ['k'] hrevK rfl (by decide))
      (stripSuffix_ne_last _ _ 'K' 'b' p.reverse ['m'] hrevK rfl (by decide))
      (stripSuffix_append p ['K'])]
    exact hok 1024 (by omega) h
  · intro h
    rw [parse_unit_M _ p
      (stripSuffix_ne_last _ _ 'M' 'b' p.reverse ['k'] hrevM rfl (by decide))
      (stripSuffix_ne_last _ _ 'M' 'b' p.reverse ['m'] hrevM rfl (by decide))
      (stripSuffix_ne_last _ _ 'M' 'K' p.reverse [] hrevM rfl (by decide))
      (stripSuffix_append p ['M'])]
    exact hok 1048576 (by omega) h
  · intro h
    cases hrev : p.reverse with
    | nil => exact absurd (List.reverse_eq_nil_iff.mp hrev) hne
    | cons c cr =>
      have hcmem : c ∈ p := List.mem_reverse.mp (hrev ▸ List.mem_cons_self c cr)
      have hc : c.isDigit = true := hall c hcmem
      obtain ⟨-, -, hb, hK, hM⟩ := isDigit_ne c hc
      rw [parse_unit_noSuffix p
        (stripSuffix_ne_last _ _ c 'b' cr ['k'] hrev rfl hb)
        (stripSuffix_ne_last _ _ c 'b' cr ['m'] hrev rfl hb)
        (stripSuffix_ne_last _ _ c 'K' cr [] hrev rfl hK)
        (stripSuffix_ne_last _ _ c 'M' cr [] hrev rfl hM)]
      exact parseUsize_digits p hne hall h

theorem parse_unit_suffix_multiplies_w :
    parse_unit (['5'] ++ ['k', 'b']) = .ok (natFrom 0 ['5'] * 1000) :=
  (parse_unit_suffix_multiplies ['5'] (by decide) (by decide)).1 (by decide)

/-- Claim C5: when the length option is not given, execute parses the
default text "0" and the (spec-modelled) read_data then reads all
remaining bytes of the file from the resolved offset to end of file, not
zero bytes. -/
theorem length_unset_reads_to_eof (skip_arg : List Char) (file : List Nat) (skip : Nat)
    (h : parse_unit skip_arg = .ok skip) :
    executeRead skip_arg none file = .ok (file.drop skip) := by
  have hred : executeRead skip_arg none file =
      match parse_unit skip_arg with
      | .error e => .error e
      | .ok skip => .ok (read_data skip 0 file) := rfl
  rw [hred, h]
  rfl

theorem length_unset_reads_to_eof_w :
    executeRead ['2'] none [9, 9, 9] = .ok (List.drop 2 [9, 9, 9]) :=
  length_unset_reads_to_eof ['2'] [9, 9, 9] 2 (by decide)

/-- Claim C6: if parsing the length text fails, or the length text parses
and parsing the skip text fails, execute surfaces that parse error as its
result, uniformly for every possible reader: read_data is never invoked
and no file access can influence the outcome. -/
theorem execute_parse_error_short_circuits :
    ∀ (reader : Nat → Nat → List Nat → List Nat) (skip_arg : List Char)
      (length_arg : Option (List Char)) (file : List Nat) (e : ParseIntError),
      (parse_unit (length_arg.getD ['0']) = .error e →
        executeReadW reader skip_arg length_arg file = .error e) ∧
      (∀ v, parse_unit (length_arg.getD ['0']) = .ok v → parse_unit skip_arg = .error e →
        executeReadW reader skip_arg length_arg file = .error e) := by
  intro reader skip_arg length_arg file e
  constructor
  · intro h
    unfold executeReadW
    rw [h]
  · intro v hv h
    unfold executeReadW
    rw [hv, h]

theorem execute_parse_error_short_circuits_w :
    executeReadW (fun _ _ file => file) ['x'] none [5] = .error ParseIntError.invalidDigit :=
  (execute_parse_error_short_circuits (fun _ _ file => file) ['x'] none [5] .invalidDigit).2
    0 (by decide) (by decide)

theorem getLast?_cons_or (cs : List (List Nat)) (c : List Nat) :
    (c :: cs).getLast? = cs.getLast?.or (some c) := by
  induction cs generalizing c with
  | nil => rfl
  | cons b l ih => rw [List.getLast?_cons_cons, ih b, Option.or_assoc]; rfl

theorem nextState_prev (st : SqueezeState) (c : List Nat) :
    (nextState st c).prev = some c := by
  unfold nextState
  by_cases h : c.length = 16 ∧ st.prev = some c
  · rw [if_pos h]
    cases hm : st.marked
    · rw [if_neg (by decide)]
      exact h.2
    · rw [if_pos rfl]
      exact h.2
  · rw [if_neg h]

theorem stAfter_prev_or : ∀ (cs : List (List Nat)) (st : SqueezeState),
    (stAfter st cs).prev = cs.getLast?.or st.prev := by
  intro cs
  induction cs with
  | nil => intro st; rfl
  | cons c cs ih =>
    intro st
    show (stAfter (nextState st c) cs).prev = (c :: cs).getLast?.or st.prev
    rw [ih (nextState st c), nextState_prev, getLast?_cons_or, Option.or_assoc]
    rfl

theorem renderChunks_append (sa : Bool) : ∀ (xs ys : List (List Nat)) (st : SqueezeState) (addr : Nat),
    renderChunks sa st addr (xs ++ ys) =
      renderChunks sa st addr xs ++ renderChunks sa (stAfter st xs) (addr + 16 * xs.length) ys := by
  intro xs
  induction xs with
  | nil =>
    intro ys st addr
    show renderChunks sa st addr ys = [] ++ renderChunks sa st (addr + 16 * 0) ys
    rw [List.nil_append, Nat.mul_zero, Nat.add_zero]
  | cons c cs ih =>
    intro ys st addr
    show stepOut sa st addr c ++ renderChunks sa (nextState st c) (addr + 16) (cs ++ ys) =
      (stepOut sa st addr c ++ renderChunks sa (nextState st c) (addr + 16) cs) ++
        renderChunks sa (stAfter (nextState st c) cs) (addr + 16 * (cs.length + 1)) ys
    rw [ih ys (nextState st c) (addr + 16), List.append_assoc]
    have harith : addr + 16 + 16 * cs.length = addr + 16 * (cs.length + 1) := by ring
    rw [harith]

theorem run_marked (c : List Nat) (hfull : c.length = 16) :
    ∀ (j : Nat) (addr : Nat),
      renderChunks false ⟨some c, true⟩ addr (List.replicate j c) = [] ∧
      stAfter ⟨some c, true⟩ (List.replicate j c) = ⟨some c, true⟩ := by
  intro j
  induction j with
  | zero => intro addr; exact ⟨rfl, rfl⟩
  | succ j ih =>
    intro addr
    have hcond : c.length = 16 ∧ (⟨some c, true⟩ : SqueezeState).prev = some c := ⟨hfull, rfl⟩
    have hstep : stepOut false ⟨some c, true⟩ addr c = [] := by
      unfold stepOut
      rw [if_neg (by simp), if_pos hcond, if_pos rfl]
    have hnext : nextState ⟨some c, true⟩ c = ⟨some c, true⟩ := by
      unfold nextState
      rw [if_pos hcond, if_pos rfl]
    constructor
    · show stepOut false ⟨some c, true⟩ addr c ++
        renderChunks false (nextState ⟨some c, true⟩ c) (addr + 16) (List.replicate j c) = []
      rw [hstep, hnext, (ih (addr + 16)).1]
      rfl
    · show stAfter (nextState ⟨some c, true⟩ c) (List.replicate j c) = ⟨some c, true⟩
      rw [hnext]
      exact (ih (addr + 16)).2

theorem run_fresh (c : List Nat) (st : SqueezeState) (addr k : Nat)
    (hfull : c.length = 16) (hprev : st.prev ≠ some c) (hk : 2 ≤ k) :
    renderChunks false st addr (List.replicate k c) = [renderLine addr c, ['*']] ∧
    stAfter st (List.replicate k c) = ⟨some c, true⟩ := by
  obtain ⟨j, rfl⟩ : ∃ j, k = j + 2 := ⟨k - 2, by omega⟩
  have hrep : List.replicate (j + 2) c = c :: c :: List.replicate j c := rfl
  have hcond1 : ¬ (c.length = 16 ∧ st.prev = some c) := fun hh => hprev hh.2
  have hstep1 : stepOut false st addr c = [renderLine addr c] := by
    unfold stepOut
    rw [if_neg (by simp), if_neg hcond1]
  have hnext1 : nextState st c = ⟨some c, false⟩ := by
    unfold nextState
    rw [if_neg hcond1]
  have hcond2 : c.length = 16 ∧ (⟨some c, false⟩ : SqueezeState).prev = some c := ⟨hfull, rfl⟩
  have hstep2 : stepOut false ⟨some c, false⟩ (addr + 16) c = [['*']] := by
    unfold stepOut
    rw [if_neg (by simp), if_pos hcond2, if_neg (by simp)]
  have hnext2 : nextState ⟨some c, false⟩ c = ⟨some c, true⟩ := by
    unfold nextState
    rw [if_pos hcond2, if_neg (by simp)]
  rw [hrep]
  constructor
  · show stepOut false st addr c ++
      (stepOut false (nextState st c) (addr + 16) c ++
        renderChunks false (nextState (nextState st c) c) (addr + 16 + 16) (List.replicate j c)) =
      [renderLine addr c, ['*']]
    rw [hstep1, hnext1, hstep2, hnext2, (run_marked c hfull j (addr + 16 + 16)).1]
    rfl
  · show stAfter (nextState (nextState st c) c) (List.replicate j c) = ⟨some c, true⟩
    rw [hnext1, hnext2]
    exact (run_marked c hfull j 0).2

theorem renderLine_ne_star (addr : Nat) (chunk : List Nat) : renderLine addr chunk ≠ ['*'] := by
  intro h
  have hlen := congrArg List.length h
  unfold renderLine hexAddr at hlen
  simp [List.length_append] at hlen

/-- Claim C8: for data whose chunk sequence contains a maximal run of
k >= 2 consecutive identical full 16-byte chunks, squeezed rendering
emits, for that run, exactly one full rendered line followed by exactly
one line containing only a star, independent of k: the first occurrence
is emitted in full, the 2nd and later occurrences produce the single
marker and then nothing.  The trailing renderChunks term renders the
chunks after the run from the marked state. -/
theorem squeeze_run_collapses
    (offset : Nat) (data : List Nat) (pre post : List (List Nat)) (c : List Nat) (k : Nat)
    (hchunks : chunks16 data = pre ++ (List.replicate k c ++ post))
    (hfull : c.length = 16) (hk : 2 ≤ k)
    (hpre : pre.getLast? ≠ some c)
    (_hpost : post.head? ≠ some c) :
    render offset false data =
      renderChunks false ⟨none, false⟩ offset pre ++
        renderLine (offset + 16 * pre.length) c :: ['*'] ::
          renderChunks false ⟨some c, true⟩ (offset + 16 * (pre.length + k)) post ∧
    renderLine (offset + 16 * pre.length) c ≠ ['*'] := by
  constructor
  · unfold render
    rw [hchunks, renderChunks_append false pre (List.replicate k c ++ post) ⟨none, false⟩ offset,
        renderChunks_append false (List.replicate k c) post (stAfter ⟨none, false⟩ pre)
          (offset + 16 * pre.length)]
    have hprev : (stAfter ⟨none, false⟩ pre).prev ≠ some c := by
      rw [stAfter_prev_or]
      show pre.getLast?.or none ≠ some c
      rw [Option.or_none]
      exact hpre
    obtain ⟨hout, hst⟩ :=
      run_fresh c (stAfter ⟨none, false⟩ pre) (offset + 16 * pre.length) k hfull hprev hk
    rw [hout, hst, List.length_replicate]
    have harith : offset + 16 * pre.length + 16 * k = offset + 16 * (pre.length + k) := by ring
    rw [harith]
    rfl
  · exact renderLine_ne_star _ _

theorem squeeze_run_collapses_w :
    render 0 false (List.replicate 48 0) =
      renderChunks false ⟨none, false⟩ 0 [] ++
        renderLine (0 + 16 * List.length ([] : List (List Nat))) (List.replicate 16 0) :: ['*'] ::
          renderChunks false ⟨some (List.replicate 16 0), true⟩
            (0 + 16 * (List.length ([] : List (List Nat)) + 3)) [] ∧
    renderLine (0 + 16 * List.length ([] : List (List Nat))) (List.replicate 16 0) ≠ ['*'] :=
  squeeze_run_collapses 0 (List.replicate 48 0) [] [] (List.replicate 16 0) 3
    (by decide) (by decide) (by decide) (by decide) (by decide)
